import Mathlib

/-!
Shallow embedding of the comparator core of rust-rocksdb:
the timestamp-aware comparator used by the user-timestamp tests
(`tests/cases/test_user_timestamp.rs`, struct `ComparatorWithU64`) and the
FFI callback bridge (`src/comparator.rs`).

Byte slices (`&[u8]`) are embedded as `List Nat`; `Ordering as i32` as
`Int` with values -1, 0, 1; the `assert!` failure branches of fallible
comparison code as `Option` (with `none` the aborted run); `CString` as the
underlying byte list, constructible exactly when no interior nul byte is
present.
-/

/-- Embedding of Rust's lexicographic `Ord::cmp` on byte slices, cast to
`i32` (`a.cmp(b) as i32`): element-wise comparison, first difference decides,
a strict prefix orders before its extensions. Values are -1, 0, 1. -/
def bytesCmp : List Nat → List Nat → Int
  | [], [] => 0
  | [], _ :: _ => -1
  | _ :: _, [] => 1
  | x :: xs, y :: ys => if x < y then -1 else if y < x then 1 else bytesCmp xs ys

/-- Embedding of `extract_timestamp_from_user_key`: the trailing
`timestamp_size` bytes of `key` (`&key[key.len() - timestamp_size..]`). -/
def extract_timestamp_from_user_key (key : List Nat) (timestamp_size : Nat) : List Nat :=
  key.drop (key.length - timestamp_size)

/-- Embedding of `strip_timestamp_from_user_key`: `key` with its trailing
`timestamp_size` bytes removed (`&key[..key.len() - timestamp_size]`). -/
def strip_timestamp_from_user_key (key : List Nat) (timestamp_size : Nat) : List Nat :=
  key.take (key.length - timestamp_size)

/-- Embedding of the test comparator struct `ComparatorWithU64`. -/
structure ComparatorWithU64 where
  timestamp_size : Nat

/-- Embedding of `ComparatorWithU64::new()`: timestamp width is
`size_of::<u64>() / size_of::<u8>() = 8`. -/
def ComparatorWithU64.new : ComparatorWithU64 :=
  ⟨8⟩

/-- Embedding of `ComparatorWithU64::compare_timestamp`: `a.cmp(b) as i32`. -/
def ComparatorWithU64.compare_timestamp (_self : ComparatorWithU64) (a b : List Nat) : Int :=
  bytesCmp a b

/-- Embedding of `ComparatorWithU64::compare_without_timestamp`. The two
`assert!(!x_has_ts || x.len() > self.timestamp_size)` statements become the
`none` (aborted) branches; otherwise each flagged operand is stripped of its
trailing `timestamp_size` bytes and the raw parts are compared. -/
def ComparatorWithU64.compare_without_timestamp (self : ComparatorWithU64)
    (a : List Nat) (a_has_ts : Bool) (b : List Nat) (b_has_ts : Bool) : Option Int :=
  if ¬(a_has_ts = false ∨ self.timestamp_size < a.length) then none
  else if ¬(b_has_ts = false ∨ self.timestamp_size < b.length) then none
  else
    let raw_a := if a_has_ts then strip_timestamp_from_user_key a self.timestamp_size else a
    let raw_b := if b_has_ts then strip_timestamp_from_user_key b self.timestamp_size else b
    some (bytesCmp raw_a raw_b)

/-- Embedding of `ComparatorWithU64::compare`: compare without timestamps
(both operands flagged as carrying one); on a nonzero result return it,
otherwise return the negated timestamp comparison of the two suffixes. -/
def ComparatorWithU64.compare (self : ComparatorWithU64) (a b : List Nat) : Option Int :=
  match self.compare_without_timestamp a true b true with
  | none => none
  | some ret =>
      if ret ≠ 0 then some ret
      else some (-(self.compare_timestamp
          (extract_timestamp_from_user_key a self.timestamp_size)
          (extract_timestamp_from_user_key b self.timestamp_size)))

/-!
The callback bridge of `src/comparator.rs`. A `CString` is embedded as its
byte list; `CString::new` succeeds exactly when no interior nul byte (0) is
present, and stores the bytes unchanged. Heap ownership is embedded as a
count of live boxed callback states: `Box::into_raw(Box::new(..))`
increments it, `Box::from_raw` (followed by drop) decrements it. Entry
points that only read the state are pure functions returning the result
together with the (unchanged) state.
-/

/-- Embedding of `CString::new` on a byte list: fails exactly on an interior
nul byte, otherwise keeps the bytes unchanged. -/
def cstringNew (bytes : List Nat) : Option (List Nat) :=
  if bytes.contains 0 then none else some bytes

/-- Embedding of `ComparatorCallback`: the state boxed behind the plain
(non-timestamp-aware) comparator handle. -/
structure ComparatorCallback where
  name : List Nat
  compare_fn : List Nat → List Nat → Int

/-- Embedding of `name_callback`: reads `cb.name` and returns a pointer to
it; the state is returned unchanged. -/
def name_callback (cb : ComparatorCallback) : List Nat × ComparatorCallback :=
  (cb.name, cb)

/-- Embedding of `compare_callback`: applies the stored `compare_fn` to the
two byte slices; the state is returned unchanged. -/
def compare_callback (cb : ComparatorCallback) (a b : List Nat) : Int × ComparatorCallback :=
  (cb.compare_fn a b, cb)

/-- Embedding of `TimestampAwareComparatorProxy<C>`: the state boxed behind
a timestamp-aware comparator handle. -/
structure TimestampAwareComparatorProxy (C : Type) where
  name : List Nat
  comparator : C

/-- Embedding of the `TimestampAwareComparator` trait as a record of the
three comparison operations of a comparator value of type `C`. -/
structure TimestampAwareComparatorOps (C : Type) where
  compare : C → List Nat → List Nat → Int
  compare_timestamp : C → List Nat → List Nat → Int
  compare_without_timestamp : C → List Nat → Bool → List Nat → Bool → Int

/-- Embedding of the bridge entry point `name::<C>`: reads the proxy's
stored name; the proxy is returned unchanged. -/
def name_entry {C : Type} (p : TimestampAwareComparatorProxy C) :
    List Nat × TimestampAwareComparatorProxy C :=
  (p.name, p)

/-- Embedding of the bridge entry point `compare::<C>`: delegates to the
wrapped comparator's `compare`; the proxy is returned unchanged. -/
def compare_entry {C : Type} (ops : TimestampAwareComparatorOps C)
    (p : TimestampAwareComparatorProxy C) (a b : List Nat) :
    Int × TimestampAwareComparatorProxy C :=
  (ops.compare p.comparator a b, p)

/-- Embedding of the bridge entry point `compare_ts::<C>`: delegates to the
wrapped comparator's `compare_timestamp`; the proxy is returned unchanged. -/
def compare_ts_entry {C : Type} (ops : TimestampAwareComparatorOps C)
    (p : TimestampAwareComparatorProxy C) (a b : List Nat) :
    Int × TimestampAwareComparatorProxy C :=
  (ops.compare_timestamp p.comparator a b, p)

/-- Embedding of the bridge entry point `compare_without_ts::<C>`: decodes
the two `c_uchar` flags (nonzero means true) and delegates to the wrapped
comparator's `compare_without_timestamp`; the proxy is returned unchanged. -/
def compare_without_ts_entry {C : Type} (ops : TimestampAwareComparatorOps C)
    (p : TimestampAwareComparatorProxy C) (a : List Nat) (a_has_ts_raw : Nat)
    (b : List Nat) (b_has_ts_raw : Nat) :
    Int × TimestampAwareComparatorProxy C :=
  (ops.compare_without_timestamp p.comparator a (a_has_ts_raw ≠ 0) b (b_has_ts_raw ≠ 0), p)

/-- One invocation of a read-only bridge entry point, for stating that no
sequence of such calls mutates the stored proxy. -/
inductive EntryCall where
  | nameCall : EntryCall
  | compareCall (a b : List Nat) : EntryCall
  | compareTsCall (a b : List Nat) : EntryCall
  | compareWithoutTsCall (a : List Nat) (aRaw : Nat) (b : List Nat) (bRaw : Nat) : EntryCall

/-- The proxy state after one bridge entry-point invocation. -/
def runEntry {C : Type} (ops : TimestampAwareComparatorOps C)
    (p : TimestampAwareComparatorProxy C) : EntryCall → TimestampAwareComparatorProxy C
  | .nameCall => (name_entry p).2
  | .compareCall a b => (compare_entry ops p a b).2
  | .compareTsCall a b => (compare_ts_entry ops p a b).2
  | .compareWithoutTsCall a aRaw b bRaw => (compare_without_ts_entry ops p a aRaw b bRaw).2

/-- The proxy state after a sequence of bridge entry-point invocations. -/
def runCalls {C : Type} (ops : TimestampAwareComparatorOps C)
    (p : TimestampAwareComparatorProxy C) (calls : List EntryCall) :
    TimestampAwareComparatorProxy C :=
  calls.foldl (runEntry ops) p

/-- The engine-side registration record produced by a successful
`new_timestamp_aware_comparator`: the boxed proxy state and the timestamp
width handed to `crocksdb_comparator_create`. -/
structure RegistrationOk (C : Type) where
  proxy : TimestampAwareComparatorProxy C
  ts_sz : Nat

/-- Embedding of `new_timestamp_aware_comparator`, threading the count of
live boxed states: on a name with an interior nul, `CString::new` fails and
the function returns the error before anything is allocated or registered;
otherwise the proxy is boxed (one new live allocation) and registered with
the supplied timestamp width. -/
def new_timestamp_aware_comparator {C : Type} (comparator_name : List Nat)
    (ts_sz : Nat) (comparator : C) (live : Nat) :
    Except String (RegistrationOk C) × Nat :=
  match cstringNew comparator_name with
  | none => (Except.error "failed to convert to cstring", live)
  | some c_name => (Except.ok ⟨⟨c_name, comparator⟩, ts_sz⟩, live + 1)

/-- Embedding of `destructor_callback`: `Box::from_raw` turns the raw state
back into an owned box, which is dropped — exactly one live allocation
(the `ComparatorCallback`, with its name and compare function) is freed. -/
def destructor_callback (live : Nat) : Nat :=
  live - 1

/-- Embedding of `destructor::<C>`: `Box::from_raw` reclaims the boxed
`TimestampAwareComparatorProxy` — exactly one live allocation (the proxy,
with its name and wrapped comparator) is freed. -/
def destructor (live : Nat) : Nat :=
  live - 1

/-- Modelled from the spec: `crocksdb_comparator_destroy` is external FFI
code (librocksdb_sys, not under src). Per the spec the engine's destroy
path releases the handle by invoking the registered destructor entry point
exactly once. -/
def crocksdb_comparator_destroy (live : Nat) : Nat :=
  destructor live

/-- Embedding of `impl Drop for ComparatorRAIIWrapper`: dropping the
wrapper calls `crocksdb_comparator_destroy` on the stored handle once. -/
def comparatorRAIIWrapper_drop (live : Nat) : Nat :=
  crocksdb_comparator_destroy live

/-- One full create/destroy cycle: register a comparator, then drop the
returned RAII wrapper. -/
def create_destroy_cycle {C : Type} (comparator_name : List Nat) (ts_sz : Nat)
    (comparator : C) (live : Nat) : Nat :=
  comparatorRAIIWrapper_drop (new_timestamp_aware_comparator comparator_name ts_sz comparator live).2

/-!
Helper lemmas about `bytesCmp`: its value set, antisymmetry, agreement with
the lexicographic order `List.Lex (· < ·)`, and transitivity.
-/

theorem bytesCmp_antisym (a b : List Nat) : bytesCmp b a = -bytesCmp a b := by
  induction a generalizing b with
  | nil => cases b <;> rfl
  | cons x xs ih =>
    cases b with
    | nil => rfl
    | cons y ys =>
      simp only [bytesCmp]
      rcases Nat.lt_trichotomy x y with h | h | h
      · simp [h, Nat.lt_asymm h]
      · subst h
        simp [Nat.lt_irrefl, ih ys]
      · simp [h, Nat.lt_asymm h]

theorem bytesCmp_eq_zero_iff (a b : List Nat) : bytesCmp a b = 0 ↔ a = b := by
  induction a generalizing b with
  | nil => cases b <;> simp [bytesCmp]
  | cons x xs ih =>
    cases b with
    | nil => simp [bytesCmp]
    | cons y ys =>
      simp only [bytesCmp]
      rcases Nat.lt_trichotomy x y with h | h | h
      · simp [h, Nat.ne_of_lt h]
      · subst h
        simp [Nat.lt_irrefl, ih ys]
      · simp [Nat.lt_asymm h, h, (Nat.ne_of_lt h).symm]

theorem bytesCmp_neg_iff_lex (a b : List Nat) :
    bytesCmp a b = -1 ↔ List.Lex (· < ·) a b := by
  induction a generalizing b with
  | nil =>
    cases b with
    | nil => exact iff_of_false (by decide) (List.Lex.not_nil_right _ _)
    | cons y ys =>
      simp only [bytesCmp]
      exact iff_of_true trivial List.Lex.nil
  | cons x xs ih =>
    cases b with
    | nil =>
      simp only [bytesCmp]
      exact iff_of_false (by decide) (List.Lex.not_nil_right _ _)
    | cons y ys =>
      simp only [bytesCmp]
      rcases Nat.lt_trichotomy x y with h | h | h
      · rw [if_pos h]
        exact iff_of_true rfl (List.Lex.rel h)
      · subst h
        rw [if_neg (Nat.lt_irrefl x), if_neg (Nat.lt_irrefl x), List.Lex.cons_iff]
        exact ih ys
      · rw [if_neg (Nat.lt_asymm h), if_pos h]
        refine iff_of_false (by decide) ?_
        intro hL
        cases hL with
        | cons htail => omega
        | rel hr => omega

theorem bytesCmp_pos_iff_lex (a b : List Nat) :
    bytesCmp a b = 1 ↔ List.Lex (· < ·) b a := by
  rw [bytesCmp_antisym b a, ← bytesCmp_neg_iff_lex b a]
  omega

theorem bytesCmp_trichotomy (a b : List Nat) :
    bytesCmp a b = -1 ∨ bytesCmp a b = 0 ∨ bytesCmp a b = 1 := by
  induction a generalizing b with
  | nil => cases b <;> simp [bytesCmp]
  | cons x xs ih =>
    cases b with
    | nil => simp [bytesCmp]
    | cons y ys =>
      simp only [bytesCmp]
      rcases Nat.lt_trichotomy x y with h | h | h
      · simp [h]
      · subst h
        simpa [Nat.lt_irrefl] using ih ys
      · simp [h, Nat.lt_asymm h]

theorem lex_trans {a b c : List Nat}
    (h1 : List.Lex (· < ·) a b) (h2 : List.Lex (· < ·) b c) :
    List.Lex (· < ·) a c :=
  Trans.trans h1 h2

theorem bytesCmp_trans_neg {a b c : List Nat}
    (h1 : bytesCmp a b = -1) (h2 : bytesCmp b c = -1) : bytesCmp a c = -1 :=
  (bytesCmp_neg_iff_lex a c).mpr
    (lex_trans ((bytesCmp_neg_iff_lex a b).mp h1) ((bytesCmp_neg_iff_lex b c).mp h2))

theorem bytesCmp_trans_pos {a b c : List Nat}
    (h1 : bytesCmp a b = 1) (h2 : bytesCmp b c = 1) : bytesCmp a c = 1 :=
  (bytesCmp_pos_iff_lex a c).mpr
    (lex_trans ((bytesCmp_pos_iff_lex b c).mp h2) ((bytesCmp_pos_iff_lex a b).mp h1))

theorem bytesCmp_sign_iffs (a b : List Nat) :
    (bytesCmp a b < 0 ↔ List.Lex (· < ·) a b) ∧
    (bytesCmp a b = 0 ↔ a = b) ∧
    (0 < bytesCmp a b ↔ List.Lex (· < ·) b a) := by
  have ht := bytesCmp_trichotomy a b
  refine ⟨⟨fun h => (bytesCmp_neg_iff_lex a b).mp (by omega),
          fun h => by have := (bytesCmp_neg_iff_lex a b).mpr h; omega⟩,
         bytesCmp_eq_zero_iff a b,
         ⟨fun h => (bytesCmp_pos_iff_lex a b).mp (by omega),
          fun h => by have := (bytesCmp_pos_iff_lex a b).mpr h; omega⟩⟩

/-!
Characterizations of the two fallible comparator operations on inputs that
satisfy the length preconditions.
-/

theorem ComparatorWithU64.compare_without_timestamp_eq (self : ComparatorWithU64)
    (a : List Nat) (a_has_ts : Bool) (b : List Nat) (b_has_ts : Bool)
    (ha : a_has_ts = true → self.timestamp_size < a.length)
    (hb : b_has_ts = true → self.timestamp_size < b.length) :
    self.compare_without_timestamp a a_has_ts b b_has_ts =
      some (bytesCmp
        (if a_has_ts then strip_timestamp_from_user_key a self.timestamp_size else a)
        (if b_has_ts then strip_timestamp_from_user_key b self.timestamp_size else b)) := by
  have h1 : a_has_ts = false ∨ self.timestamp_size < a.length := by
    cases a_has_ts
    · exact Or.inl rfl
    · exact Or.inr (ha rfl)
  have h2 : b_has_ts = false ∨ self.timestamp_size < b.length := by
    cases b_has_ts
    · exact Or.inl rfl
    · exact Or.inr (hb rfl)
  unfold ComparatorWithU64.compare_without_timestamp
  rw [if_neg (not_not_intro h1), if_neg (not_not_intro h2)]

theorem ComparatorWithU64.compare_eq (self : ComparatorWithU64) (a b : List Nat)
    (ha : self.timestamp_size < a.length) (hb : self.timestamp_size < b.length) :
    self.compare a b =
      some (if bytesCmp (strip_timestamp_from_user_key a self.timestamp_size)
            (strip_timestamp_from_user_key b self.timestamp_size) ≠ 0
       then bytesCmp (strip_timestamp_from_user_key a self.timestamp_size)
            (strip_timestamp_from_user_key b self.timestamp_size)
       else -(bytesCmp (extract_timestamp_from_user_key a self.timestamp_size)
            (extract_timestamp_from_user_key b self.timestamp_size))) := by
  unfold ComparatorWithU64.compare
  rw [self.compare_without_timestamp_eq a true b true (fun _ => ha) (fun _ => hb)]
  by_cases e : bytesCmp (strip_timestamp_from_user_key a self.timestamp_size)
      (strip_timestamp_from_user_key b self.timestamp_size) = 0 <;>
    simp [ComparatorWithU64.compare_timestamp, e]

/-!
Arithmetic facts about the tie-breaking combination
`if s then s else -t` used by `compare`.
-/

theorem tie_antisym {s s' t t' : Int} (hs : s' = -s) (ht : t' = -t) :
    (if s' ≠ 0 then s' else -t') = -(if s ≠ 0 then s else -t) := by
  by_cases e : s = 0 <;> simp [hs, ht, e]

theorem tie_zero_iff {s t : Int} :
    (if s ≠ 0 then s else -t) = 0 ↔ s = 0 ∧ t = 0 := by
  by_cases e : s = 0 <;> simp [e]

theorem tie_lt_iff {s t : Int} (hs : s = -1 ∨ s = 0 ∨ s = 1)
    (ht : t = -1 ∨ t = 0 ∨ t = 1) :
    ((if s ≠ 0 then s else -t) < 0 ↔ (s = -1 ∨ (s = 0 ∧ t = 1))) := by
  by_cases e : s = 0 <;> simp [e] <;> omega

/-!
Claims about the timestamp-aware comparator operations.
-/

/-- C3: for all byte sequences `a`, `b` and flags, provided each flagged
operand is strictly longer than the timestamp width,
`compare_without_timestamp` returns the lexicographic comparison of `a'`
against `b'`, where a flagged operand has exactly its trailing
`timestamp_size` bytes removed and an unflagged operand is unchanged. -/
theorem compare_without_timestamp_lex_spec (self : ComparatorWithU64)
    (a : List Nat) (a_has_ts : Bool) (b : List Nat) (b_has_ts : Bool)
    (ha : a_has_ts = true → self.timestamp_size < a.length)
    (hb : b_has_ts = true → self.timestamp_size < b.length) :
    ∃ r : Int,
      self.compare_without_timestamp a a_has_ts b b_has_ts = some r ∧
      (r < 0 ↔ List.Lex (· < ·)
        (if a_has_ts then strip_timestamp_from_user_key a self.timestamp_size else a)
        (if b_has_ts then strip_timestamp_from_user_key b self.timestamp_size else b)) ∧
      (r = 0 ↔
        (if a_has_ts then strip_timestamp_from_user_key a self.timestamp_size else a) =
        (if b_has_ts then strip_timestamp_from_user_key b self.timestamp_size else b)) ∧
      (0 < r ↔ List.Lex (· < ·)
        (if b_has_ts then strip_timestamp_from_user_key b self.timestamp_size else b)
        (if a_has_ts then strip_timestamp_from_user_key a self.timestamp_size else a)) :=
  ⟨_, self.compare_without_timestamp_eq a a_has_ts b b_has_ts ha hb,
    bytesCmp_sign_iffs _ _⟩

/-- C3 witness: a concrete evaluation, one operand flagged and stripped,
the other bare: `[5,9] ++ eight timestamp bytes` against bare `[5,8]`. -/
theorem compare_without_timestamp_lex_spec_witness :
    ((true : Bool) = true → ComparatorWithU64.new.timestamp_size <
      ([5, 9, 0, 0, 0, 0, 0, 0, 0, 1] : List Nat).length) ∧
    ∃ r : Int,
      ComparatorWithU64.new.compare_without_timestamp
        [5, 9, 0, 0, 0, 0, 0, 0, 0, 1] true [5, 8] false = some r ∧
      (r < 0 ↔ List.Lex (· < ·)
        (if true then strip_timestamp_from_user_key [5, 9, 0, 0, 0, 0, 0, 0, 0, 1]
          ComparatorWithU64.new.timestamp_size else [5, 9, 0, 0, 0, 0, 0, 0, 0, 1])
        (if false then strip_timestamp_from_user_key [5, 8]
          ComparatorWithU64.new.timestamp_size else [5, 8])) ∧
      (r = 0 ↔
        (if true then strip_timestamp_from_user_key [5, 9, 0, 0, 0, 0, 0, 0, 0, 1]
          ComparatorWithU64.new.timestamp_size else [5, 9, 0, 0, 0, 0, 0, 0, 0, 1]) =
        (if false then strip_timestamp_from_user_key [5, 8]
          ComparatorWithU64.new.timestamp_size else [5, 8])) ∧
      (0 < r ↔ List.Lex (· < ·)
        (if false then strip_timestamp_from_user_key [5, 8]
          ComparatorWithU64.new.timestamp_size else [5, 8])
        (if true then strip_timestamp_from_user_key [5, 9, 0, 0, 0, 0, 0, 0, 0, 1]
          ComparatorWithU64.new.timestamp_size else [5, 9, 0, 0, 0, 0, 0, 0, 0, 1])) :=
  ⟨fun _ => by decide,
    compare_without_timestamp_lex_spec ComparatorWithU64.new
      [5, 9, 0, 0, 0, 0, 0, 0, 0, 1] true [5, 8] false
      (fun _ => by decide) (fun h => absurd h (by decide))⟩

/-- C4: for every non-empty raw key and every timestamp of exactly
`timestamp_size` bytes, comparing the suffixed key (flagged) against the
bare raw key (unflagged) with `compare_without_timestamp` yields 0. -/
theorem compare_without_timestamp_bare_suffixed_zero (self : ComparatorWithU64)
    (raw ts : List Nat) (hraw : raw ≠ []) (hts : ts.length = self.timestamp_size) :
    self.compare_without_timestamp (raw ++ ts) true raw false = some 0 := by
  have hpos : 0 < raw.length := List.length_pos.mpr hraw
  have hlen : self.timestamp_size < (raw ++ ts).length := by
    rw [List.length_append, hts]
    omega
  rw [self.compare_without_timestamp_eq (raw ++ ts) true raw false
    (fun _ => hlen) (fun h => absurd h (by decide))]
  have hstrip : strip_timestamp_from_user_key (raw ++ ts) self.timestamp_size = raw := by
    unfold strip_timestamp_from_user_key
    rw [List.length_append, hts, Nat.add_sub_cancel]
    exact List.take_left raw ts
  simp [hstrip, bytesCmp_eq_zero_iff]

/-- C4 witness: raw key `"k1"` with the big-endian u64 timestamp 7. -/
theorem compare_without_timestamp_bare_suffixed_zero_witness :
    ([107, 49] : List Nat) ≠ [] ∧
    ([0, 0, 0, 0, 0, 0, 0, 7] : List Nat).length = ComparatorWithU64.new.timestamp_size ∧
    ComparatorWithU64.new.compare_without_timestamp
      ([107, 49] ++ [0, 0, 0, 0, 0, 0, 0, 7]) true [107, 49] false = some 0 :=
  ⟨by decide, by decide,
    compare_without_timestamp_bare_suffixed_zero ComparatorWithU64.new
      [107, 49] [0, 0, 0, 0, 0, 0, 0, 7] (by decide) (by decide)⟩

/-- C1: for full keys strictly longer than the timestamp width, `compare`
equals `compare_without_timestamp(a, true, b, true)` whenever that result is
nonzero; when that result is zero it equals the negation of
`compare_timestamp` on the two trailing `timestamp_size`-byte suffixes, so
on equal raw keys `compare` is negative exactly when `a`'s timestamp suffix
is lexicographically greater than `b`'s (larger timestamp orders first). -/
theorem compare_tie_breaks_by_descending_timestamp (self : ComparatorWithU64)
    (a b : List Nat) (ha : self.timestamp_size < a.length)
    (hb : self.timestamp_size < b.length) :
    (∀ r : Int, self.compare_without_timestamp a true b true = some r →
      (r ≠ 0 → self.compare a b = some r) ∧
      (r = 0 → self.compare a b = some (-(self.compare_timestamp
          (extract_timestamp_from_user_key a self.timestamp_size)
          (extract_timestamp_from_user_key b self.timestamp_size))))) ∧
    (self.compare_without_timestamp a true b true = some 0 →
      ∀ rc : Int, self.compare a b = some rc →
        (rc < 0 ↔ List.Lex (· < ·)
          (extract_timestamp_from_user_key b self.timestamp_size)
          (extract_timestamp_from_user_key a self.timestamp_size))) := by
  have hcwt := self.compare_without_timestamp_eq a true b true (fun _ => ha) (fun _ => hb)
  simp only [if_pos rfl] at hcwt
  have hcmp := self.compare_eq a b ha hb
  constructor
  · intro r hr
    have hr' : bytesCmp (strip_timestamp_from_user_key a self.timestamp_size)
        (strip_timestamp_from_user_key b self.timestamp_size) = r :=
      Option.some.inj (hcwt.symm.trans hr)
    constructor
    · intro hne
      rw [hcmp, hr', if_pos hne]
    · intro h0
      rw [hcmp, hr', h0, if_neg (by omega)]
      rfl
  · intro h0 rc hrc
    have h0' : bytesCmp (strip_timestamp_from_user_key a self.timestamp_size)
        (strip_timestamp_from_user_key b self.timestamp_size) = 0 :=
      Option.some.inj (hcwt.symm.trans h0)
    rw [hcmp] at hrc
    have hrc' := Option.some.inj hrc
    rw [h0', if_neg (by omega)] at hrc'
    rw [← hrc', neg_lt_zero]
    exact (bytesCmp_sign_iffs _ _).2.2

/-- C1 witness: equal raw key `"k1"`, timestamp 2 against timestamp 1; the
newer version compares as smaller. -/
theorem compare_tie_breaks_by_descending_timestamp_witness :
    ComparatorWithU64.new.timestamp_size <
      ([107, 49, 0, 0, 0, 0, 0, 0, 0, 2] : List Nat).length ∧
    ComparatorWithU64.new.compare [107, 49, 0, 0, 0, 0, 0, 0, 0, 2]
      [107, 49, 0, 0, 0, 0, 0, 0, 0, 1] =
      some (-(ComparatorWithU64.new.compare_timestamp
        (extract_timestamp_from_user_key [107, 49, 0, 0, 0, 0, 0, 0, 0, 2]
          ComparatorWithU64.new.timestamp_size)
        (extract_timestamp_from_user_key [107, 49, 0, 0, 0, 0, 0, 0, 0, 1]
          ComparatorWithU64.new.timestamp_size))) := by
  refine ⟨by decide, ?_⟩
  have h := compare_tie_breaks_by_descending_timestamp ComparatorWithU64.new
    [107, 49, 0, 0, 0, 0, 0, 0, 0, 2] [107, 49, 0, 0, 0, 0, 0, 0, 0, 1]
    (by decide) (by decide)
  exact (h.1 0 (by decide)).2 rfl

/-- C2: on keys strictly longer than the timestamp width, `compare` is a
strict weak ordering: `compare(a,b)` and `compare(b,a)` are exact negations
(opposite signs, zero together); zero results compose transitively; and
strictly negative results compose transitively. -/
theorem compare_strict_weak_ordering (self : ComparatorWithU64) (a b c : List Nat)
    (ha : self.timestamp_size < a.length) (hb : self.timestamp_size < b.length)
    (hc : self.timestamp_size < c.length) :
    (∃ rab rba : Int, self.compare a b = some rab ∧ self.compare b a = some rba ∧
      rba = -rab) ∧
    (self.compare a b = some 0 → self.compare b c = some 0 →
      self.compare a c = some 0) ∧
    (∀ rab rbc : Int, self.compare a b = some rab → rab < 0 →
      self.compare b c = some rbc → rbc < 0 →
      ∃ rac : Int, self.compare a c = some rac ∧ rac < 0) := by
  refine ⟨?_, ?_, ?_⟩
  · refine ⟨_, _, self.compare_eq a b ha hb, self.compare_eq b a hb ha, ?_⟩
    exact tie_antisym (bytesCmp_antisym _ _) (bytesCmp_antisym _ _)
  · intro h1 h2
    rw [self.compare_eq a b ha hb] at h1
    rw [self.compare_eq b c hb hc] at h2
    have h1' := tie_zero_iff.mp (Option.some.inj h1)
    have h2' := tie_zero_iff.mp (Option.some.inj h2)
    have e1 := (bytesCmp_eq_zero_iff _ _).mp h1'.1
    have e2 := (bytesCmp_eq_zero_iff _ _).mp h2'.1
    have f1 := (bytesCmp_eq_zero_iff _ _).mp h1'.2
    have f2 := (bytesCmp_eq_zero_iff _ _).mp h2'.2
    rw [self.compare_eq a c ha hc]
    exact congrArg some (tie_zero_iff.mpr
      ⟨(bytesCmp_eq_zero_iff _ _).mpr (e1.trans e2),
       (bytesCmp_eq_zero_iff _ _).mpr (f1.trans f2)⟩)
  · intro rab rbc h1 hlt1 h2 hlt2
    rw [self.compare_eq a b ha hb] at h1
    rw [self.compare_eq b c hb hc] at h2
    rw [← Option.some.inj h1] at hlt1
    rw [← Option.some.inj h2] at hlt2
    rw [tie_lt_iff (bytesCmp_trichotomy _ _) (bytesCmp_trichotomy _ _)] at hlt1 hlt2
    refine ⟨_, self.compare_eq a c ha hc, ?_⟩
    rw [tie_lt_iff (bytesCmp_trichotomy _ _) (bytesCmp_trichotomy _ _)]
    rcases hlt1 with hs1 | ⟨hs1, ht1⟩ <;> rcases hlt2 with hs2 | ⟨hs2, ht2⟩
    · exact Or.inl (bytesCmp_trans_neg hs1 hs2)
    · have e2 := (bytesCmp_eq_zero_iff _ _).mp hs2
      rw [← e2]
      exact Or.inl hs1
    · have e1 := (bytesCmp_eq_zero_iff _ _).mp hs1
      rw [e1]
      exact Or.inl hs2
    · refine Or.inr ⟨(bytesCmp_eq_zero_iff _ _).mpr
        (((bytesCmp_eq_zero_iff _ _).mp hs1).trans ((bytesCmp_eq_zero_iff _ _).mp hs2)),
        bytesCmp_trans_pos ht1 ht2⟩

/-- C2 witness: `"k1"` at timestamp 2, `"k1"` at timestamp 1, `"k2"` at
timestamp 9 (so both the timestamp tie-break and the raw-key order occur in
the chain). -/
theorem compare_strict_weak_ordering_witness :
    ComparatorWithU64.new.timestamp_size <
      ([107, 49, 0, 0, 0, 0, 0, 0, 0, 2] : List Nat).length ∧
    ∃ rac : Int,
      ComparatorWithU64.new.compare [107, 49, 0, 0, 0, 0, 0, 0, 0, 2]
        [107, 50, 0, 0, 0, 0, 0, 0, 0, 9] = some rac ∧ rac < 0 := by
  refine ⟨by decide, ?_⟩
  have h := compare_strict_weak_ordering ComparatorWithU64.new
    [107, 49, 0, 0, 0, 0, 0, 0, 0, 2] [107, 49, 0, 0, 0, 0, 0, 0, 0, 1]
    [107, 50, 0, 0, 0, 0, 0, 0, 0, 9] (by decide) (by decide) (by decide)
  exact h.2.2 (-1) (-1) (by decide) (by decide) (by decide) (by decide)

/-- Spec-side interpretation of a byte list as a big-endian encoded
unsigned integer (most significant byte first), used to state that
`compare_timestamp` agrees with numeric order on fixed-width encodings. -/
def beVal (l : List Nat) : Nat :=
  l.foldl (fun acc d => acc * 256 + d) 0

theorem beVal_foldl_acc (l : List Nat) : ∀ acc : Nat,
    l.foldl (fun acc d => acc * 256 + d) acc = acc * 256 ^ l.length + beVal l := by
  induction l with
  | nil => intro acc; simp [beVal]
  | cons x xs ih =>
    intro acc
    have hx : beVal (x :: xs) = List.foldl (fun acc d => acc * 256 + d) x xs := by
      simp only [beVal, List.foldl_cons]
      norm_num
    rw [List.foldl_cons, ih (acc * 256 + x), hx, ih x, List.length_cons]
    ring

theorem beVal_cons (x : Nat) (xs : List Nat) :
    beVal (x :: xs) = x * 256 ^ xs.length + beVal xs := by
  have hx : beVal (x :: xs) = List.foldl (fun acc d => acc * 256 + d) x xs := by
    simp only [beVal, List.foldl_cons]
    norm_num
  rw [hx, beVal_foldl_acc]

theorem beVal_lt_pow (l : List Nat) (hl : ∀ x ∈ l, x < 256) :
    beVal l < 256 ^ l.length := by
  induction l with
  | nil => simp [beVal]
  | cons x xs ih =>
    have hx : x < 256 := hl x (List.mem_cons_self x xs)
    have hxs := ih (fun y hy => hl y (List.mem_cons_of_mem x hy))
    rw [beVal_cons]
    calc x * 256 ^ xs.length + beVal xs
        < x * 256 ^ xs.length + 256 ^ xs.length := Nat.add_lt_add_left hxs _
      _ = (x + 1) * 256 ^ xs.length := by ring
      _ ≤ 256 * 256 ^ xs.length := Nat.mul_le_mul_right _ hx
      _ = 256 ^ (x :: xs).length := by rw [List.length_cons, pow_succ]; ring

theorem beVal_lt_of_bytesCmp_neg (a : List Nat) :
    ∀ b : List Nat, a.length = b.length → (∀ x ∈ a, x < 256) →
    (∀ x ∈ b, x < 256) → bytesCmp a b = -1 → beVal a < beVal b := by
  induction a with
  | nil =>
    intro b hlen _ _ h
    cases b with
    | nil => exact absurd h (by decide)
    | cons y ys => exact absurd hlen (by simp)
  | cons x xs ih =>
    intro b hlen hab hbb h
    cases b with
    | nil => exact absurd hlen (by simp)
    | cons y ys =>
      have hlen' : xs.length = ys.length := by simpa using hlen
      have hxs : ∀ z ∈ xs, z < 256 := fun z hz => hab z (List.mem_cons_of_mem x hz)
      have hys : ∀ z ∈ ys, z < 256 := fun z hz => hbb z (List.mem_cons_of_mem y hz)
      simp only [bytesCmp] at h
      rcases Nat.lt_trichotomy x y with hxy | hxy | hxy
      · have h1 : beVal xs < 256 ^ ys.length := by
          rw [← hlen']
          exact beVal_lt_pow xs hxs
        rw [beVal_cons, beVal_cons, hlen']
        calc x * 256 ^ ys.length + beVal xs
            < x * 256 ^ ys.length + 256 ^ ys.length := Nat.add_lt_add_left h1 _
          _ = (x + 1) * 256 ^ ys.length := by ring
          _ ≤ y * 256 ^ ys.length := Nat.mul_le_mul_right _ hxy
          _ ≤ y * 256 ^ ys.length + beVal ys := Nat.le_add_right _ _
      · subst hxy
        rw [if_neg (Nat.lt_irrefl x), if_neg (Nat.lt_irrefl x)] at h
        rw [beVal_cons, beVal_cons, hlen']
        exact Nat.add_lt_add_left (ih ys hlen' hxs hys h) _
      · rw [if_neg (Nat.lt_asymm hxy), if_pos hxy] at h
        exact absurd h (by decide)

theorem bytesCmp_neg_iff_beVal_lt (a b : List Nat) (hlen : a.length = b.length)
    (hab : ∀ x ∈ a, x < 256) (hbb : ∀ x ∈ b, x < 256) :
    bytesCmp a b = -1 ↔ beVal a < beVal b := by
  constructor
  · exact beVal_lt_of_bytesCmp_neg a b hlen hab hbb
  · intro h
    rcases bytesCmp_trichotomy a b with hn | hz | hp
    · exact hn
    · rw [(bytesCmp_eq_zero_iff a b).mp hz] at h
      omega
    · have hba : bytesCmp b a = -1 := by
        have := bytesCmp_antisym a b
        omega
      have := beVal_lt_of_bytesCmp_neg b a hlen.symm hbb hab hba
      omega

/-- C5: `compare_timestamp`'s sign is exactly the byte-lexicographic order
of its operands, and on operands of equal length whose entries are bytes it
matches the numeric order of the big-endian encoded unsigned integers. -/
theorem compare_timestamp_lex_and_numeric_spec (self : ComparatorWithU64)
    (a b : List Nat) :
    ((self.compare_timestamp a b < 0 ↔ List.Lex (· < ·) a b) ∧
     (self.compare_timestamp a b = 0 ↔ a = b) ∧
     (0 < self.compare_timestamp a b ↔ List.Lex (· < ·) b a)) ∧
    (a.length = b.length → (∀ x ∈ a, x < 256) → (∀ x ∈ b, x < 256) →
      ((self.compare_timestamp a b < 0 ↔ beVal a < beVal b) ∧
       (self.compare_timestamp a b = 0 ↔ beVal a = beVal b) ∧
       (0 < self.compare_timestamp a b ↔ beVal b < beVal a))) := by
  constructor
  · exact bytesCmp_sign_iffs a b
  · intro hlen hab hbb
    have hne := bytesCmp_neg_iff_beVal_lt a b hlen hab hbb
    have hne' := bytesCmp_neg_iff_beVal_lt b a hlen.symm hbb hab
    have htr := bytesCmp_trichotomy a b
    have hanti := bytesCmp_antisym a b
    unfold ComparatorWithU64.compare_timestamp
    refine ⟨⟨fun h => hne.mp (by omega), fun h => by have := hne.mpr h; omega⟩,
      ⟨fun h => by rw [(bytesCmp_eq_zero_iff a b).mp h], fun h => ?_⟩,
      ⟨fun h => hne'.mp (by omega), fun h => by have := hne'.mpr h; omega⟩⟩
    rcases htr with h1 | h1 | h1
    · have := hne.mp h1
      omega
    · exact h1
    · have hba : bytesCmp b a = -1 := by omega
      have := hne'.mp hba
      omega

/-- C5 witness: the big-endian u64 encodings of 1 and 2. -/
theorem compare_timestamp_lex_and_numeric_spec_witness :
    ([0, 0, 0, 0, 0, 0, 0, 1] : List Nat).length =
      ([0, 0, 0, 0, 0, 0, 0, 2] : List Nat).length ∧
    (ComparatorWithU64.new.compare_timestamp [0, 0, 0, 0, 0, 0, 0, 1]
        [0, 0, 0, 0, 0, 0, 0, 2] < 0 ↔
      beVal [0, 0, 0, 0, 0, 0, 0, 1] < beVal [0, 0, 0, 0, 0, 0, 0, 2]) := by
  refine ⟨by decide, ?_⟩
  exact ((compare_timestamp_lex_and_numeric_spec ComparatorWithU64.new
    [0, 0, 0, 0, 0, 0, 0, 1] [0, 0, 0, 0, 0, 0, 0, 2]).2
    (by decide) (by decide) (by decide)).1

/-- C6: the assertions of `compare_without_timestamp` fail (the run aborts)
exactly when some flagged operand is not strictly longer than the timestamp
width; under the length precondition the failure branch is unreachable and
an ordering is returned. -/
theorem compare_without_timestamp_assert_spec (self : ComparatorWithU64)
    (a : List Nat) (a_has_ts : Bool) (b : List Nat) (b_has_ts : Bool) :
    (self.compare_without_timestamp a a_has_ts b b_has_ts = none ↔
      (a_has_ts = true ∧ a.length ≤ self.timestamp_size) ∨
      (b_has_ts = true ∧ b.length ≤ self.timestamp_size)) ∧
    ((a_has_ts = true → self.timestamp_size < a.length) →
     (b_has_ts = true → self.timestamp_size < b.length) →
      ∃ r, self.compare_without_timestamp a a_has_ts b b_has_ts = some r) := by
  constructor
  · unfold ComparatorWithU64.compare_without_timestamp
    cases a_has_ts <;> cases b_has_ts <;>
      by_cases h1 : self.timestamp_size < a.length <;>
      by_cases h2 : self.timestamp_size < b.length <;>
      simp [h1, h2] <;> omega
  · intro ha hb
    exact ⟨_, self.compare_without_timestamp_eq a a_has_ts b b_has_ts ha hb⟩

/-- C6 witness: a flagged one-byte key under the width-8 comparator aborts
the comparison. -/
theorem compare_without_timestamp_assert_spec_witness :
    ComparatorWithU64.new.compare_without_timestamp
      [1] true [0, 1, 2, 3, 4, 5, 6, 7, 8] true = none :=
  ((compare_without_timestamp_assert_spec ComparatorWithU64.new
    [1] true [0, 1, 2, 3, 4, 5, 6, 7, 8] true).1).mpr (Or.inl ⟨rfl, by decide⟩)

/-!
Claims about the callback bridge.
-/

/-- C7: registration fails, and fails only, on a name with an embedded nul
byte; on failure the error is returned before anything is allocated or
registered (the live-allocation count is unchanged and no handle exists),
and on a nul-free name the proxy holding exactly the given name and
comparator is registered with the given width. -/
theorem new_timestamp_aware_comparator_name_error_spec {C : Type}
    (comparator_name : List Nat) (ts_sz : Nat) (comparator : C) (live : Nat) :
    (comparator_name.contains 0 = true →
      (new_timestamp_aware_comparator comparator_name ts_sz comparator live).1 =
        Except.error "failed to convert to cstring" ∧
      (new_timestamp_aware_comparator comparator_name ts_sz comparator live).2 = live) ∧
    (comparator_name.contains 0 = false →
      (new_timestamp_aware_comparator comparator_name ts_sz comparator live).1 =
        Except.ok ⟨⟨comparator_name, comparator⟩, ts_sz⟩) := by
  constructor
  · intro h
    have h' : (0 : Nat) ∈ comparator_name := by simpa using h
    simp [new_timestamp_aware_comparator, cstringNew, h']
  · intro h
    have h' : (0 : Nat) ∉ comparator_name := by simpa using h
    simp [new_timestamp_aware_comparator, cstringNew, h']

/-- C7 witness: the name `"A\x00B"` is rejected and nothing is allocated;
the name `"r"` is accepted. -/
theorem new_timestamp_aware_comparator_name_error_spec_witness :
    ([65, 0, 66] : List Nat).contains 0 = true ∧
    (new_timestamp_aware_comparator [65, 0, 66] 8 (37 : Nat) 5).1 =
      Except.error "failed to convert to cstring" ∧
    (new_timestamp_aware_comparator [65, 0, 66] 8 (37 : Nat) 5).2 = 5 :=
  ⟨by decide,
    (new_timestamp_aware_comparator_name_error_spec [65, 0, 66] 8 (37 : Nat) 5).1
      (by decide)⟩

/-- C10: registration performs no validation of the timestamp width: for
every nul-free name, every width `ts_sz` (including 0) and every comparator
value, the call succeeds. -/
theorem new_timestamp_aware_comparator_accepts_any_ts_sz {C : Type}
    (comparator_name : List Nat) (h : comparator_name.contains 0 = false) :
    ∀ (ts_sz : Nat) (comparator : C) (live : Nat),
      (new_timestamp_aware_comparator comparator_name ts_sz comparator live).1 =
        Except.ok ⟨⟨comparator_name, comparator⟩, ts_sz⟩ := by
  intro ts_sz comparator live
  have h' : (0 : Nat) ∉ comparator_name := by simpa using h
  simp [new_timestamp_aware_comparator, cstringNew, h']

/-- C10 witness: width 0 is accepted. -/
theorem new_timestamp_aware_comparator_accepts_any_ts_sz_witness :
    ([114] : List Nat).contains 0 = false ∧
    (new_timestamp_aware_comparator [114] 0 (0 : Nat) 0).1 =
      Except.ok ⟨⟨[114], (0 : Nat)⟩, 0⟩ :=
  ⟨by decide,
    new_timestamp_aware_comparator_accepts_any_ts_sz [114] (by decide) 0 0 0⟩

/-- C8: the name entry points return exactly the bytes stored at creation,
and no read-only entry point of either bridge mutates the stored state; in
particular after any sequence of entry-point invocations the proxy is
unchanged and the name entry point still returns the creation bytes. -/
theorem bridge_entry_points_no_mutation {C : Type}
    (ops : TimestampAwareComparatorOps C) (p : TimestampAwareComparatorProxy C)
    (cb : ComparatorCallback) (a b : List Nat) (aRaw bRaw : Nat)
    (calls : List EntryCall) :
    (name_entry p).1 = p.name ∧ (name_entry p).2 = p ∧
    (compare_entry ops p a b).2 = p ∧
    (compare_ts_entry ops p a b).2 = p ∧
    (compare_without_ts_entry ops p a aRaw b bRaw).2 = p ∧
    (name_callback cb).1 = cb.name ∧ (name_callback cb).2 = cb ∧
    (compare_callback cb a b).2 = cb ∧
    runCalls ops p calls = p ∧
    (name_entry (runCalls ops p calls)).1 = p.name := by
  have hrun : runCalls ops p calls = p := by
    induction calls with
    | nil => rfl
    | cons c cs ih =>
      have hstep : runEntry ops p c = p := by cases c <;> rfl
      simp only [runCalls, List.foldl_cons] at ih ⊢
      rw [hstep]
      exact ih
  exact ⟨rfl, rfl, rfl, rfl, rfl, rfl, rfl, rfl, hrun, by rw [hrun]; rfl⟩

/-- C9: registration allocates exactly one boxed proxy and the destroy path
frees exactly one: dropping the RAII wrapper invokes the engine destroy
path once, which runs the destructor once; hence a create/destroy cycle —
and any number of repeated cycles — returns the live-allocation count to
its starting value (no leak of the wrapped capability). -/
theorem create_destroy_releases_exactly_once {C : Type}
    (comparator_name : List Nat) (ts_sz : Nat) (comparator : C)
    (h : comparator_name.contains 0 = false) :
    (∀ live : Nat, comparatorRAIIWrapper_drop live = destructor live ∧
      destructor live = live - 1 ∧ destructor_callback live = live - 1) ∧
    (∀ live : Nat, create_destroy_cycle comparator_name ts_sz comparator live = live) ∧
    (∀ n live : Nat,
      Nat.iterate (create_destroy_cycle comparator_name ts_sz comparator) n live = live) := by
  have hcycle : ∀ live : Nat,
      create_destroy_cycle comparator_name ts_sz comparator live = live := by
    intro live
    have h' : (0 : Nat) ∉ comparator_name := by simpa using h
    simp [create_destroy_cycle, new_timestamp_aware_comparator, cstringNew, h',
      comparatorRAIIWrapper_drop, crocksdb_comparator_destroy, destructor]
  refine ⟨fun live => ⟨rfl, rfl, rfl⟩, hcycle, ?_⟩
  intro n
  induction n with
  | zero => intro live; rfl
  | succ n ih =>
    intro live
    rw [Function.iterate_succ_apply, hcycle live]
    exact ih live

/-- C9 witness: one hundred create/destroy cycles starting from three live
allocations end with three live allocations. -/
theorem create_destroy_releases_exactly_once_witness :
    ([114] : List Nat).contains 0 = false ∧
    Nat.iterate (create_destroy_cycle [114] 8 (0 : Nat)) 100 3 = 3 :=
  ⟨by decide,
    (create_destroy_releases_exactly_once [114] 8 (0 : Nat) (by decide)).2.2 100 3⟩

